import Mathlib

/-!
Shallow embedding of the multi-project orchestration engine of
`src/server.js` (claude-editor).

Conventions of the embedding:
* JS strings are modelled as `List Char`; JS numbers that are ports,
  pids or counters are `Nat`.
* External effects (OS process spawning, TCP bind probes, `JSON.parse`)
  are modelled as explicit parameters: fresh pids come from a counter,
  a bind probe is an oracle `Nat → Bool`, and `JSON.parse` together with
  the shape tests of the output dispatcher is an abstract
  `decode : List Char → Option Decoded`.
* Every emission to the websocket is recorded as an `Event`; process
  kills are recorded as `Act.kill`.
-/

namespace ClaudeEditor

/-- JS whitespace test used by `String.prototype.trim` (ASCII subset,
which covers every character the server ever produces). -/
def isWsChar (c : Char) : Bool :=
  c = ' ' || c = '\t' || c = '\n' || c = '\r'

/-- `line.trim()` of `server.js`: strip whitespace from both ends. -/
def trimChars (s : List Char) : List Char :=
  ((s.dropWhile isWsChar).reverse.dropWhile isWsChar).reverse

/-- Does `s` start with `pat` (character-exact)? -/
def startsWithChars : List Char → List Char → Bool
  | [], _ => true
  | _ :: _, [] => false
  | p :: ps, c :: cs => p = c && startsWithChars ps cs

/-- JS `String.prototype.includes`: does `pat` occur contiguously in
`s`? -/
def containsSub (pat : List Char) : List Char → Bool
  | [] => pat.isEmpty
  | s@(_ :: rest) => startsWithChars pat s || containsSub pat rest

/-- `parseInt` on a string of decimal digits (the only use in
`detectAndSendPort`, where the regex capture is `\d+`). -/
def digitsToNat (ds : List Char) : Nat :=
  ds.foldl (fun a c => a * 10 + (c.toNat - 48)) 0

/-- Websocket messages the server sends, restricted to the payload the
claims talk about (`server.js` sends them as tagged JSON objects). -/
inductive Event where
  | output (data : List Char)
  | previewUrl (url : List Char)
  | queueUpdate (queue : List (List Char))
  | claudeStopped
  | netlifyStopped
deriving DecidableEq, Repr

/-- An externally visible action: killing an OS process or sending a
websocket message. -/
inductive Act where
  | kill (pid : Nat)
  | send (e : Event)
deriving DecidableEq, Repr

/-- The per-project state object created by `getProjectState`
(`server.js` lines 52-66), field for field.  Process and watcher
handles are modelled by their ids; `Cmd` is the type of queued command
payloads (`{ command, files }` objects). -/
structure ProjectState (Cmd : Type) where
  netlifyProcess : Option Nat
  claudeProcess : Option Nat
  vitePort : Option (List Char)
  netlifyPort : Option (List Char)
  fileWatcher : Option Nat
  claudeReady : Bool
  commandQueue : List Cmd
  currentWs : Option Nat
deriving DecidableEq, Repr

/-- The initial value `getProjectState` installs for a fresh project. -/
def initialProjectState {Cmd : Type} : ProjectState Cmd :=
  ⟨none, none, none, none, none, false, [], none⟩

/-! ## Port allocator (`getOrAssignProjectPort`, `server.js` 87-129)

`config.projectPorts` is modelled as an association list with unique
keys (JS object keyed by project name); a bind probe
(`net.createServer().listen(port)`) is an oracle `avail : Nat → Bool`
fixed per call.  `saveConfig`/`loadConfig` (lines 18-36) persist the
table verbatim, so persistence across a restart is modelled by the
table being carried from call to call. -/

/-- The persisted `projectPorts` table. -/
abbrev PortTable := List (String × Nat)

/-- Property access `config.projectPorts[projectName]`. -/
def lookupPort : PortTable → String → Option Nat
  | [], _ => none
  | (q, v) :: rest, p => if q = p then some v else lookupPort rest p

/-- The scan loop of lines 100-122: try ports upward, skipping ports
already present as values (`usedPorts.has(port)`) and ports whose bind
probe fails; `fuel` is the remaining width of the scan range. -/
def scanPort (used : List Nat) (avail : Nat → Bool) : Nat → Nat → Option Nat
  | _, 0 => none
  | port, fuel + 1 =>
    if port ∈ used then scanPort used avail (port + 1) fuel
    else if avail port then some port
    else scanPort used avail (port + 1) fuel

/-- `getOrAssignProjectPort(projectName)` (lines 87-129): return the
stored port if present; otherwise scan 5173..5272 and persist the first
free unclaimed port; on exhaustion persist the fallback
`5173 + Object.keys(config.projectPorts).length`. -/
def getOrAssignProjectPort (avail : Nat → Bool) (cfg : PortTable) (p : String) :
    PortTable × Nat :=
  match lookupPort cfg p with
  | some port => (cfg, port)
  | none =>
    let used := cfg.map Prod.snd
    match scanPort used avail 5173 100 with
    | some port => (cfg ++ [(p, port)], port)
    | none =>
      let fallbackPort := 5173 + cfg.length
      (cfg ++ [(p, fallbackPort)], fallbackPort)

/-- A sequence of `getOrAssignProjectPort` calls, each with its own
probe oracle, threading the persisted table. -/
def runAssign (cfg : PortTable) : List (String × (Nat → Bool)) → PortTable
  | [] => cfg
  | (p, avail) :: calls => runAssign (getOrAssignProjectPort avail cfg p).1 calls

/-- True when a call sequence never reaches the exhaustion fallback:
each call either finds an existing entry or succeeds through the scan. -/
def noFallback (cfg : PortTable) : List (String × (Nat → Bool)) → Bool
  | [] => true
  | (p, avail) :: calls =>
    ((lookupPort cfg p).isSome ||
      (scanPort (cfg.map Prod.snd) avail 5173 100).isSome) &&
    noFallback (getOrAssignProjectPort avail cfg p).1 calls

/-! ## Output stream parser (`processClaudeOutput`, `server.js` 436-473)

`JSON.parse` plus the shape tests of the dispatch chain (lines 444-461)
are a call into the JS runtime, modelled as an abstract
`decode : List Char → Option Decoded`: `none` is a `JSON.parse` throw
(the `catch` branch), and `Decoded` records which branch of the
dispatch a successfully parsed line takes. -/

/-- One element of `json.message.content` in an assistant record:
`{type:'text'}` blocks carry `block.text`, `{type:'tool_use'}` blocks
carry `block.name` and the `JSON.stringify(block.input)` rendering, and
any other block type falls through the `if`/`else if` with no output. -/
inductive Block where
  | text (t : List Char)
  | toolUse (name inputStr : List Char)
  | other
deriving DecidableEq, Repr

/-- The verdict of `JSON.parse` plus the dispatch tests: `assistant` is
`json.type === 'assistant' && json.message?.content` (with its content
blocks); `delta` is `json.type === 'content_block_delta' &&
json.delta?.text` (with that text); `system` is `json.type === 'system'`
(with `json.message` when truthy); `other` is any other successfully
parsed value, which matches no branch. -/
inductive Decoded where
  | assistant (blocks : List Block)
  | delta (t : List Char)
  | system (message : Option (List Char))
  | other
deriving DecidableEq, Repr

/-- Output events for one content block of an assistant record
(lines 447-453). -/
def blockEvents : Block → List Event
  | .text t => [.output t]
  | .toolUse name inputStr =>
      [.output ("\n🔧 ".toList ++ name ++ ": ".toList ++
                inputStr.take 100 ++ "...\n".toList)]
  | .other => []

/-- Output events for one complete line (lines 441-469): whitespace-only
lines are skipped; a parsed line is dispatched on its shape; a line the
parse throws on is forwarded raw with a newline appended. -/
def lineEvents (decode : List Char → Option Decoded) (line : List Char) :
    List Event :=
  if (trimChars line).isEmpty then []
  else
    match decode line with
    | some (.assistant blocks) => blocks.flatMap blockEvents
    | some (.delta t) => [.output t]
    | some (.system (some m)) => [.output ("📋 ".toList ++ m ++ "\n".toList)]
    | some (.system none) => []
    | some .other => []
    | none =>
      if (trimChars line).isEmpty then [] else [.output (line ++ "\n".toList)]

/-- Streaming core of `processClaudeOutput`: walk the text, emitting the
events of each newline-terminated line and returning the final
(possibly incomplete) fragment.  This is the `buffer.split('\n')` /
`lines.pop()` / per-line loop of lines 437-440 expressed one character
at a time; `cur` is the prefix of the current line read so far. -/
def processAllGo (decode : List Char → Option Decoded) (cur : List Char) :
    List Char → List Event × List Char
  | [] => ([], cur)
  | c :: cs =>
    if c = '\n' then
      let rest := processAllGo decode [] cs
      (lineEvents decode cur ++ rest.1, rest.2)
    else processAllGo decode (cur ++ [c]) cs

/-- Process a whole text: events of its complete lines, and the trailing
fragment after the last newline. -/
def processAll (decode : List Char → Option Decoded) (s : List Char) :
    List Event × List Char :=
  processAllGo decode [] s

/-- `processClaudeOutput(content, project, ws, buffer)`: append the
chunk to the carry-over buffer, emit the events of every complete line,
return the new buffer (lines 436-473). -/
def processClaudeOutput (decode : List Char → Option Decoded)
    (content buffer : List Char) : List Event × List Char :=
  processAll decode (buffer ++ content)

/-- Feed a sequence of stdout/stderr chunks through
`processClaudeOutput`, threading the buffer as the data handlers of
lines 567-574 do (`buffer = processClaudeOutput(data.toString(), ...,
buffer)`). -/
def feed (decode : List Char → Option Decoded) :
    List (List Char) → List Char → List Event × List Char
  | [], buffer => ([], buffer)
  | c :: cs, buffer =>
    let p := processClaudeOutput decode c buffer
    let q := feed decode cs p.2
    (p.1 ++ q.1, q.2)

/-- The completion notice of the `close` handler (line 581). -/
def doneMsg (code : Nat) : List Char :=
  "\n\n✅ Kommando færdig (kode: ".toList ++ (Nat.repr code).toList ++ ").\n".toList

/-- Everything the agent-process `close` handler (lines 577-584) sends:
only the completion notice — the handler never touches the carry-over
buffer. -/
def claudeExitEmissions (code : Nat) : List Event :=
  [.output (doneMsg code)]

/-- All output forwarded for one agent run: the per-chunk parser events
followed by the close handler's emissions. -/
def totalForwarded (decode : List Char → Option Decoded)
    (chunks : List (List Char)) (code : Nat) : List Event :=
  (feed decode chunks []).1 ++ claudeExitEmissions code

/-- The fragment of a text after its last newline (empty if the text
ends in a newline). -/
def afterLastNl (s : List Char) : List Char :=
  s.foldl (fun acc c => if c = '\n' then [] else acc ++ [c]) []

/-- Concatenated payload of a list of output events. -/
def eventText : Event → List Char
  | .output d => d
  | .previewUrl u => u
  | .queueUpdate _ => []
  | .claudeStopped => []
  | .netlifyStopped => []

/-- A decode oracle under which every line throws in `JSON.parse`
(plain non-JSON text, the `catch` branch of line 463). -/
def decodeAllRaw : List Char → Option Decoded := fun _ => none

/-- The line `{"type":"result"}`: `JSON.parse` succeeds on it and its
record type `result` is none of `assistant`, `content_block_delta`,
`system`, so the dispatch of lines 446-461 takes no branch.
(`\x7b`/`\x7d` are the braces.) -/
def resultLine : List Char := "\x7b\"type\":\"result\"\x7d".toList

/-- A decode oracle matching `JSON.parse` on `resultLine` (successful
parse, unrecognized record type) and throwing elsewhere. -/
def decodeResultLine : List Char → Option Decoded :=
  fun l => if l = resultLine then some .other else none

/-! ## Command queue scheduler (`sendCommand`, `processNextInQueue`,
the agent `close` handler; `server.js` 475-623)

The scheduler state wraps the project state with the observables the
claims quantify over: `live` is the list of spawned agent OS processes
that have not yet exited (the OS-level truth the `claudeProcess` field
tracks), `timers` the pending 500ms dequeue callbacks of
`processNextInQueue` with their commands, `nextPid` a fresh-pid
counter, and `enqueued`/`executedQ` ghost logs of the commands that
were appended to `commandQueue` and of the queued commands whose
re-submission actually spawned. -/

/-- Scheduler state: project state plus OS/timer observables. -/
structure Sched (Cmd : Type) where
  ps : ProjectState Cmd
  live : List Nat
  timers : List Cmd
  nextPid : Nat
  enqueued : List Cmd
  executedQ : List Cmd
deriving DecidableEq, Repr

/-- Fresh scheduler state for a fresh project. -/
def initSched {Cmd : Type} : Sched Cmd :=
  ⟨initialProjectState, [], [], 0, [], []⟩

/-- `sendCommand(command, files, project, ws, fromQueue)` (lines
475-604): reject when the session is not ready; append to the queue
when a process is running and the call is not a queue re-submission;
otherwise spawn a fresh agent process and store its handle.  Note the
queue gate `state.claudeProcess && !fromQueue` — a `fromQueue` call
spawns without re-checking `claudeProcess`. -/
def sendCommand {Cmd : Type} (fromQueue : Bool) (c : Cmd) (s : Sched Cmd) :
    Sched Cmd :=
  if s.ps.claudeReady = false then s
  else if s.ps.claudeProcess.isSome && !fromQueue then
    { s with
      ps := { s.ps with commandQueue := s.ps.commandQueue ++ [c],
                        currentWs := some 0 },
      enqueued := s.enqueued ++ [c] }
  else
    { s with
      ps := { s.ps with claudeProcess := some s.nextPid },
      live := s.live ++ [s.nextPid],
      nextPid := s.nextPid + 1,
      executedQ := if fromQueue then s.executedQ ++ [c] else s.executedQ }

/-- `processNextInQueue(project, ws)` (lines 606-623): if the queue is
non-empty, shift its head and schedule the 500ms `setTimeout` that will
re-submit it with `fromQueue = true`. -/
def processNextInQueue {Cmd : Type} (s : Sched Cmd) : Sched Cmd :=
  match s.ps.commandQueue with
  | [] => s
  | c :: rest =>
    { s with ps := { s.ps with commandQueue := rest },
             timers := s.timers ++ [c] }

/-- The state effect of the agent `close` handler (lines 577-584):
unconditionally clear `claudeProcess`, then `processNextInQueue`. -/
def onClaudeClose {Cmd : Type} (s : Sched Cmd) : Sched Cmd :=
  processNextInQueue { s with ps := { s.ps with claudeProcess := none } }

/-- Events of the scheduler environment: `start-claude`, a user
`send-command`, the exit of a live agent process (delivering its
`close` event), and the firing of the oldest pending 500ms dequeue
timer. -/
inductive SEv (Cmd : Type) where
  | start
  | submit (c : Cmd)
  | procExit (p : Nat)
  | fire
deriving DecidableEq, Repr

/-- One scheduler step per event, exactly as the source handlers run on
the event loop. -/
def step {Cmd : Type} : SEv Cmd → Sched Cmd → Sched Cmd
  | .start, s => { s with ps := { s.ps with claudeReady := true } }
  | .submit c, s => sendCommand false c s
  | .procExit p, s =>
    if p ∈ s.live then onClaudeClose { s with live := s.live.erase p } else s
  | .fire, s =>
    match s.timers with
    | [] => s
    | c :: ts => sendCommand true c { s with timers := ts }

/-- Run a sequence of scheduler events. -/
def run {Cmd : Type} (evs : List (SEv Cmd)) (s : Sched Cmd) : Sched Cmd :=
  evs.foldl (fun st e => step e st) s

/-- True unless the event is a user submission arriving while a
dequeue timer is pending. -/
def submitGuard {Cmd : Type} : SEv Cmd → Sched Cmd → Bool
  | SEv.submit _, s => s.timers.isEmpty
  | _, _ => true

/-- The interleaving restriction under which mutual exclusion does
hold: no user submission is processed while a dequeue timer is
pending. -/
def okFrom {Cmd : Type} : Sched Cmd → List (SEv Cmd) → Bool
  | _, [] => true
  | s, e :: es => submitGuard e s && okFrom (step e s) es

/-- The mutual-exclusion shape an individual scheduler state can have:
idle with at most one pending dequeue timer, or exactly one live agent
process (the one `claudeProcess` holds) and no pending timer. -/
def SchedInv {Cmd : Type} (s : Sched Cmd) : Prop :=
  (s.ps.claudeProcess = none ∧ s.live = [] ∧ s.timers.length ≤ 1) ∨
  (∃ p, s.ps.claudeProcess = some p ∧ s.live = [p] ∧ s.timers = [])

/-- FIFO bookkeeping invariant: the queued commands already executed,
the ones sitting in pending timers and the ones still queued are, in
that order, exactly the commands ever enqueued; and nothing is queued
before the session is ready. -/
def QInv {Cmd : Type} (s : Sched Cmd) : Prop :=
  s.executedQ ++ s.timers ++ s.ps.commandQueue = s.enqueued ∧
  (s.ps.claudeReady = false →
    s.timers = [] ∧ s.ps.commandQueue = [] ∧
    s.enqueued = [] ∧ s.executedQ = [])

/-! ## Dev-server lifecycle and file watcher (`startNetlify`,
`stopNetlify`, the dev-server `close` handler; `server.js` 801-983)

Only the state effects on the handle and port fields are modelled; the
textual websocket notices these paths send do not affect the fields the
claims are about.  Fresh process/watcher ids are passed in. -/

/-- `startNetlify` on its successful path (lines 801-965): kill and
clear an existing dev-server process and its ports, record the assigned
port, spawn the new process, and finally `startFileWatcher` (lines
342-395), which closes any existing watcher and installs a new one. -/
def startNetlifyOk {Cmd : Type} (assigned : List Char) (procId watchId : Nat)
    (s : ProjectState Cmd) : ProjectState Cmd :=
  let s1 :=
    if s.netlifyProcess.isSome then
      { s with netlifyProcess := none, vitePort := none, netlifyPort := none }
    else s
  let s2 := { s1 with vitePort := some assigned, netlifyProcess := some procId }
  { s2 with fileWatcher := some watchId }

/-- `startNetlify` on the early-return path (no dev command detected,
lines 822-826): the existing process was already killed and cleared,
then the function returns — without touching `fileWatcher`. -/
def startNetlifyNoCmd {Cmd : Type} (s : ProjectState Cmd) : ProjectState Cmd :=
  if s.netlifyProcess.isSome then
    { s with netlifyProcess := none, vitePort := none, netlifyPort := none }
  else s

/-- The dev-server `close` handler (lines 953-959): clear the process
handle and both ports.  It does not touch `fileWatcher`. -/
def netlifyClose {Cmd : Type} (s : ProjectState Cmd) : ProjectState Cmd :=
  { s with netlifyProcess := none, vitePort := none, netlifyPort := none }

/-- `stopNetlify(project, ws)` (lines 967-983): close the watcher if
present, then kill the process and clear it and the ports. -/
def stopNetlify {Cmd : Type} (s : ProjectState Cmd) : ProjectState Cmd :=
  let s1 := if s.fileWatcher.isSome then { s with fileWatcher := none } else s
  if s1.netlifyProcess.isSome then
    { s1 with netlifyProcess := none, vitePort := none, netlifyPort := none }
  else s1

/-! ## Session stop operations (`stopClaude`, `stopCurrentCommand`;
`server.js` 625-673) -/

/-- `stopCurrentCommand(project, ws)` (lines 655-673): when an agent
process is running, clear its timeout interval, kill it (both by pid
and through the handle — one OS process), clear `claudeProcess` and
send the stop notice; otherwise do nothing and send nothing. -/
def stopCurrentCommand {Cmd : Type} (s : ProjectState Cmd) :
    ProjectState Cmd × List Act :=
  match s.claudeProcess with
  | none => (s, [])
  | some pid =>
    ({ s with claudeProcess := none },
     [.kill pid, .send (.output "\n\n⬛ Kommando stoppet.\n".toList)])

/-- `stopClaude(project, ws)` (lines 625-653): kill a running agent
process and clear its handle, discard the whole queue (reporting the
count when non-zero), clear `currentWs`, send the empty queue snapshot,
the stop notices and `claude-stopped`, and clear `claudeReady`. -/
def stopClaude {Cmd : Type} (s : ProjectState Cmd) :
    ProjectState Cmd × List Act :=
  let killed : List Act :=
    match s.claudeProcess with
    | none => []
    | some pid => [.kill pid]
  let queuedCount := s.commandQueue.length
  let discardNotice : List Act :=
    if 0 < queuedCount then
      [.send (.output ("\n🗑️ ".toList ++ (Nat.repr queuedCount).toList ++
        " kommando(er) fjernet fra kø.\n".toList))]
    else []
  ({ s with claudeProcess := none, commandQueue := [], currentWs := none,
            claudeReady := false },
   killed ++ discardNotice ++
     [.send (.queueUpdate []),
      .send (.output "\n\n🛑 Claude session stoppet.\n".toList),
      .send .claudeStopped])

/-! ## Port-announcement scanner (`detectAndSendPort`, `server.js`
701-752)

Each regex of the pattern table is embedded as a matcher that, tried at
every position from the left (`String.prototype.match` without the `g`
flag finds the leftmost match), returns the digits captured by its
`(\d+)` group. -/

/-- Case-insensitive literal prefix match (the `/i` flag): strip `pat`
from the front of `s`, comparing lowercased characters. -/
def stripCI : List Char → List Char → Option (List Char)
  | [], s => some s
  | _ :: _, [] => none
  | p :: ps, c :: cs =>
    if p.toLower = c.toLower then stripCI ps cs else none

/-- A greedy `(\d+)` capture: the maximal nonempty leading digit run. -/
def readDigits (s : List Char) : Option (List Char) :=
  let ds := s.takeWhile Char.isDigit
  if ds.isEmpty then none else some ds

/-- Greedy `.*pat(\d+)`: the backtracking `.*` makes the match use the
last occurrence of `pat` followed by digits; `.` does not cross a line
terminator, so the caller restricts `s` to the current line. -/
def lastPat (pat : List Char) : List Char → Option (List Char)
  | [] => none
  | c :: cs =>
    match lastPat pat cs with
    | some r => some r
    | none =>
      match stripCI pat (c :: cs) with
      | some r => readDigits r
      | none => none

/-- Try a matcher at every position from the left; the first position
where it succeeds wins (leftmost-match semantics of `output.match`). -/
def firstMatch (tryHere : List Char → Option (List Char)) :
    List Char → Option (List Char)
  | [] => tryHere []
  | s@(_ :: rest) =>
    match tryHere s with
    | some r => some r
    | none => firstMatch tryHere rest

/-- `/(?:Local|Network):\s*https?:\/\/localhost:(\d+)/i` at one
position. -/
def tryP1 (s : List Char) : Option (List Char) :=
  let afterKey :=
    match stripCI "local:".toList s with
    | some r => some r
    | none => stripCI "network:".toList s
  match afterKey with
  | none => none
  | some r =>
    let r1 := r.dropWhile isWsChar
    match stripCI "http".toList r1 with
    | none => none
    | some r2 =>
      let r3 := match stripCI "s".toList r2 with
                | some x => x
                | none => r2
      match stripCI "://localhost:".toList r3 with
      | none => none
      | some r4 => readDigits r4

/-- `/Server now ready.*localhost:(\d+)/i` at one position. -/
def tryP2 (s : List Char) : Option (List Char) :=
  match stripCI "server now ready".toList s with
  | none => none
  | some rest => lastPat "localhost:".toList (rest.takeWhile (fun c => c ≠ '\n'))

/-- `/✔.*ready on port (\d+)/i` at one position. -/
def tryP3 (s : List Char) : Option (List Char) :=
  match stripCI "✔".toList s with
  | none => none
  | some rest =>
    lastPat "ready on port ".toList (rest.takeWhile (fun c => c ≠ '\n'))

/-- `/listening (?:on|to) (?:port )?(\d+)/i` at one position. -/
def tryP4 (s : List Char) : Option (List Char) :=
  match stripCI "listening ".toList s with
  | none => none
  | some r =>
    let r1 := match stripCI "on ".toList r with
              | some x => some x
              | none => stripCI "to ".toList r
    match r1 with
    | none => none
    | some r2 =>
      let r3 := match stripCI "port ".toList r2 with
                | some x => x
                | none => r2
      readDigits r3

/-- `/localhost:(\d+)/i` at one position. -/
def tryP5 (s : List Char) : Option (List Char) :=
  match stripCI "localhost:".toList s with
  | some r => readDigits r
  | none => none

/-- Classification tags of the pattern table (`type` strings of lines
716-722). -/
inductive PatTy where
  | viteReady
  | netlifyReady
  | confirmedReady
  | listening
  | generic
deriving DecidableEq, Repr

/-- The ordered pattern table of `detectAndSendPort`. -/
def patternTable : List ((List Char → Option (List Char)) × PatTy) :=
  [(tryP1, .viteReady), (tryP2, .netlifyReady), (tryP3, .confirmedReady),
   (tryP4, .listening), (tryP5, .generic)]

/-- The `for (const { regex, type } of patterns)` loop of lines 724-751:
take the first pattern that matches; `continue` to the next pattern
when the captured port is outside 3000-9999; otherwise classify the
port (`'8888'` or ≥ 8880 is the proxy port, updating `netlifyPort` and
always announcing; any other port updates `vitePort` only when unset or
when the match is a vite-ready/confirmed-ready one) and `break`. -/
def detectLoop {Cmd : Type} (output : List Char) (s : ProjectState Cmd) :
    List ((List Char → Option (List Char)) × PatTy) →
    ProjectState Cmd × List Event
  | [] => (s, [])
  | (pat, ty) :: rest =>
    match firstMatch pat output with
    | none => detectLoop output s rest
    | some ds =>
      let portNum := digitsToNat ds
      if portNum < 3000 || 9999 < portNum then detectLoop output s rest
      else if ds = "8888".toList || 8880 ≤ portNum then
        ({ s with netlifyPort := some ds },
         [.previewUrl ("http://localhost:".toList ++ ds)])
      else if s.vitePort.isNone || ty = PatTy.viteReady ||
              ty = PatTy.confirmedReady then
        ({ s with vitePort := some ds },
         [.previewUrl ("http://localhost:".toList ++ ds)])
      else (s, [])

/-- `detectAndSendPort(output, project, ws)` (lines 701-752): skip any
line containing a `waiting for` indicator before testing patterns, then
run the pattern loop. -/
def detectAndSendPort {Cmd : Type} (output : List Char)
    (s : ProjectState Cmd) : ProjectState Cmd × List Event :=
  if containsSub "waiting for".toList (output.map Char.toLower) then (s, [])
  else detectLoop output s patternTable

/-! ## Theorems -/

theorem scanPort_not_mem {used : List Nat} {avail : Nat → Bool} :
    ∀ {start fuel port : Nat}, scanPort used avail start fuel = some port → port ∉ used := by
  intro start fuel
  induction fuel generalizing start with
  | zero => intro port h; simp [scanPort] at h
  | succ n ih =>
    intro port h
    by_cases hm : start ∈ used
    · simp only [scanPort, if_pos hm] at h
      exact ih h
    · simp only [scanPort, if_neg hm] at h
      by_cases ha : avail start
      · simp [ha] at h; exact h ▸ hm
      · simp [ha] at h; exact ih h

theorem lookupPort_eq_none {cfg : PortTable} {p : String}
    (h : lookupPort cfg p = none) : ∀ pr ∈ cfg, pr.1 ≠ p := by
  induction cfg with
  | nil => intro pr hpr; simp at hpr
  | cons hd tl ih =>
    intro pr hpr
    rw [List.mem_cons] at hpr
    by_cases hq : hd.1 = p
    · rw [lookupPort, if_pos hq] at h
      exact absurd h (by simp)
    · rcases hpr with rfl | hpr
      · exact hq
      · refine ih ?_ pr hpr
        rw [lookupPort, if_neg hq] at h
        exact h

theorem lookupPort_append_some {cfg : PortTable} {p : String} {v : Nat}
    (h : lookupPort cfg p = some v) (l : PortTable) :
    lookupPort (cfg ++ l) p = some v := by
  induction cfg with
  | nil => simp [lookupPort] at h
  | cons hd tl ih =>
    by_cases hq : hd.1 = p
    · simp only [lookupPort, if_pos hq] at h ⊢
      exact h
    · simp only [List.cons_append, lookupPort, if_neg hq] at h ⊢
      exact ih h

theorem lookupPort_append_none {cfg : PortTable} {p : String}
    (h : lookupPort cfg p = none) (l : PortTable) :
    lookupPort (cfg ++ l) p = lookupPort l p := by
  induction cfg with
  | nil => simp
  | cons hd tl ih =>
    by_cases hq : hd.1 = p
    · simp [lookupPort, hq] at h
    · simp only [List.cons_append, lookupPort, if_neg hq] at h ⊢
      exact ih h

/-- After a call for `p`, the table maps `p` to the returned port. -/
theorem getOrAssign_lookup (avail : Nat → Bool) (cfg : PortTable) (p : String) :
    lookupPort (getOrAssignProjectPort avail cfg p).1 p =
      some (getOrAssignProjectPort avail cfg p).2 := by
  unfold getOrAssignProjectPort
  cases h : lookupPort cfg p with
  | some v => simp [h]
  | none =>
    cases hs : scanPort (cfg.map Prod.snd) avail 5173 100 with
    | some port => simp [h, hs, lookupPort_append_none h, lookupPort]
    | none => simp [h, hs, lookupPort_append_none h, lookupPort]

/-- A call never modifies an existing assignment (first-write-wins). -/
theorem getOrAssign_preserves (avail : Nat → Bool) (cfg : PortTable)
    (q p : String) (v : Nat) (h : lookupPort cfg p = some v) :
    lookupPort (getOrAssignProjectPort avail cfg q).1 p = some v := by
  unfold getOrAssignProjectPort
  cases hq : lookupPort cfg q with
  | some w => simpa [hq]
  | none =>
    cases hs : scanPort (cfg.map Prod.snd) avail 5173 100 with
    | some port => simpa [hq, hs] using lookupPort_append_some h _
    | none => simpa [hq, hs] using lookupPort_append_some h _

/-- Assignments survive any later sequence of calls. -/
theorem runAssign_preserves (calls : List (String × (Nat → Bool)))
    (cfg : PortTable) (p : String) (v : Nat) (h : lookupPort cfg p = some v) :
    lookupPort (runAssign cfg calls) p = some v := by
  induction calls generalizing cfg with
  | nil => exact h
  | cons c rest ih =>
    exact ih _ (getOrAssign_preserves c.2 cfg c.1 p v h)

/-- When the project already has an entry, the call returns it and
leaves the table alone. -/
theorem getOrAssign_found {cfg : PortTable} {p : String} {v : Nat}
    (avail : Nat → Bool) (h : lookupPort cfg p = some v) :
    getOrAssignProjectPort avail cfg p = (cfg, v) := by
  unfold getOrAssignProjectPort
  rw [h]

theorem lookupPort_mem {cfg : PortTable} {p : String} {v : Nat}
    (h : lookupPort cfg p = some v) : (p, v) ∈ cfg := by
  induction cfg with
  | nil => simp [lookupPort] at h
  | cons hd tl ih =>
    by_cases hq : hd.1 = p
    · rw [lookupPort, if_pos hq] at h
      have hhd : hd = (p, v) := by
        obtain ⟨a, b⟩ := hd
        simp only [Option.some.injEq] at h
        simp only at hq
        rw [hq, h]
      rw [hhd]
      exact List.mem_cons_self _ _
    · rw [lookupPort, if_neg hq] at h
      exact List.mem_cons_of_mem _ (ih h)

theorem nodup_values_inj {cfg : PortTable} {p q : String} {v : Nat}
    (hv : (cfg.map Prod.snd).Nodup) (hp : (p, v) ∈ cfg) (hq : (q, v) ∈ cfg) :
    p = q := by
  induction cfg with
  | nil => simp at hp
  | cons hd tl ih =>
    rw [List.map_cons, List.nodup_cons] at hv
    rcases List.mem_cons.mp hp with rfl | hp₁
    · rcases List.mem_cons.mp hq with h | hq₁
      · exact (congrArg Prod.fst h.symm)
      · exact absurd (List.mem_map_of_mem Prod.snd hq₁) hv.1
    · rcases List.mem_cons.mp hq with rfl | hq₁
      · exact absurd (List.mem_map_of_mem Prod.snd hp₁) hv.1
      · exact ih hv.2 hp₁ hq₁

/-- A call that does not fall back preserves distinctness of keys and
of assigned ports. -/
theorem getOrAssign_nodup (avail : Nat → Bool) (cfg : PortTable) (p : String)
    (hk : (cfg.map Prod.fst).Nodup) (hv : (cfg.map Prod.snd).Nodup)
    (hok : ((lookupPort cfg p).isSome ||
            (scanPort (cfg.map Prod.snd) avail 5173 100).isSome) = true) :
    (((getOrAssignProjectPort avail cfg p).1.map Prod.fst).Nodup ∧
     ((getOrAssignProjectPort avail cfg p).1.map Prod.snd).Nodup) := by
  cases hl : lookupPort cfg p with
  | some v =>
    rw [getOrAssign_found avail hl]
    exact ⟨hk, hv⟩
  | none =>
    cases hs : scanPort (cfg.map Prod.snd) avail 5173 100 with
    | none => simp [hl, hs] at hok
    | some port =>
      have hres : getOrAssignProjectPort avail cfg p = (cfg ++ [(p, port)], port) := by
        simp [getOrAssignProjectPort, hl, hs]
      have hpk : p ∉ cfg.map Prod.fst := by
        intro hmem
        rcases List.mem_map.mp hmem with ⟨pr, hpr, hfst⟩
        exact lookupPort_eq_none hl pr hpr hfst
      have hpv : port ∉ cfg.map Prod.snd := scanPort_not_mem hs
      rw [hres]
      constructor
      · rw [List.map_append]
        refine hk.append (by simp) ?_
        intro a ha hb
        simp only [List.map_cons, List.map_nil, List.mem_singleton] at hb
        exact hpk (hb ▸ ha)
      · rw [List.map_append]
        refine hv.append (by simp) ?_
        intro a ha hb
        simp only [List.map_cons, List.map_nil, List.mem_singleton] at hb
        exact hpv (hb ▸ ha)

/-- Distinctness of keys and ports is preserved along any fallback-free
call sequence. -/
theorem runAssign_nodup (calls : List (String × (Nat → Bool)))
    (cfg : PortTable)
    (hk : (cfg.map Prod.fst).Nodup) (hv : (cfg.map Prod.snd).Nodup)
    (hok : noFallback cfg calls = true) :
    (((runAssign cfg calls).map Prod.fst).Nodup ∧
     ((runAssign cfg calls).map Prod.snd).Nodup) := by
  induction calls generalizing cfg with
  | nil => exact ⟨hk, hv⟩
  | cons c rest ih =>
    rw [noFallback, Bool.and_eq_true] at hok
    have h1 := getOrAssign_nodup c.2 cfg c.1 hk hv hok.1
    exact ih _ h1.1 h1.2 hok.2

/-- C3 (counterexample): the exhaustion fallback `5173 + table size`
can collide with a scan-assigned port.  Project `A` is assigned 5174 by
the probe scan (5173 busy, 5174 free); a later call for project `B`
with every port in 5173..5272 busy exhausts the scan and falls back to
`5173 + 1 = 5174`, the port already recorded for `A`.  This refutes the
claim that the ports recorded for two distinct projects are always
different when the fallback is involved. -/
theorem port_fallback_collision :
    ("A" ≠ "B") ∧
    lookupPort
      (getOrAssignProjectPort (fun _ => false)
        (getOrAssignProjectPort (fun port => port == 5174) [] "A").1 "B").1
      "A" = some 5174 ∧
    lookupPort
      (getOrAssignProjectPort (fun _ => false)
        (getOrAssignProjectPort (fun port => port == 5174) [] "A").1 "B").1
      "B" = some 5174 := by
  refine ⟨by decide, by decide, by decide⟩

/-- C3 (amended): no two distinct projects are ever assigned the same
port by `getOrAssignProjectPort` as long as every assignment is made by
the probe scan (which skips every port already present as a value in
`config.projectPorts`); the exhaustion fallback `5173 + table size` is
excluded, since it is not collision-free
(`port_fallback_collision`). -/
theorem ports_distinct_without_fallback
    (calls : List (String × (Nat → Bool)))
    (h : noFallback [] calls = true)
    (p q : String) (vp vq : Nat) (hpq : p ≠ q)
    (hp : lookupPort (runAssign [] calls) p = some vp)
    (hq : lookupPort (runAssign [] calls) q = some vq) : vp ≠ vq := by
  intro hv
  have hnd := runAssign_nodup calls [] (by simp) (by simp) h
  exact hpq (nodup_values_inj hnd.2 (lookupPort_mem hp)
    (lookupPort_mem (hv ▸ hq)))

/-- Witness for `ports_distinct_without_fallback`: two fallback-free
calls assign 5173 to `a` and 5174 to `b`, and the theorem yields
`5173 ≠ 5174`. -/
theorem ports_distinct_without_fallback_witness :
    noFallback [] [("a", fun _ => true), ("b", fun _ => true)] = true ∧
    (5173 : Nat) ≠ 5174 :=
  ⟨by decide,
   ports_distinct_without_fallback [("a", fun _ => true), ("b", fun _ => true)]
     (by decide) "a" "b" 5173 5174 (by decide) (by decide) (by decide)⟩

/-- C4: `getOrAssignProjectPort` called twice with the same project
name returns the same port both times, whatever probe outcomes hold at
each call and whatever calls for other projects happen in between.  The
first call persists the assignment (`saveConfig`, lines 118/127) and a
restart reloads it verbatim (`loadConfig`, lines 18-32), so persistence
across a restart is the threaded table. -/
theorem project_port_stable (av1 av2 : Nat → Bool) (cfg : PortTable)
    (p : String) (calls : List (String × (Nat → Bool))) :
    (getOrAssignProjectPort av2
      (runAssign (getOrAssignProjectPort av1 cfg p).1 calls) p).2
      = (getOrAssignProjectPort av1 cfg p).2 := by
  have h1 := getOrAssign_lookup av1 cfg p
  have h2 := runAssign_preserves calls _ p _ h1
  rw [getOrAssign_found av2 h2]

/-- One scheduler step preserves the mutual-exclusion shape, provided a
submission only runs while no dequeue timer is pending. -/
theorem schedInv_step {Cmd : Type} (e : SEv Cmd) (s : Sched Cmd)
    (hI : SchedInv s) (hok : submitGuard e s = true) :
    SchedInv (step e s) := by
  cases e with
  | start =>
    rcases hI with ⟨h1, h2, h3⟩ | ⟨p, h1, h2, h3⟩
    · exact Or.inl ⟨by simpa [step] using h1, by simpa [step] using h2,
        by simpa [step] using h3⟩
    · exact Or.inr ⟨p, by simpa [step] using h1, by simpa [step] using h2,
        by simpa [step] using h3⟩
  | submit c =>
    have ht : s.timers = [] := by
      have := hok
      simp [submitGuard, List.isEmpty_iff] at this
      exact this
    by_cases hr : s.ps.claudeReady = false
    · rcases hI with ⟨h1, h2, h3⟩ | ⟨p, h1, h2, h3⟩
      · exact Or.inl ⟨by simp [step, sendCommand, hr, h1],
          by simp [step, sendCommand, hr, h2], by simp [step, sendCommand, hr, h3]⟩
      · exact Or.inr ⟨p, by simp [step, sendCommand, hr, h1],
          by simp [step, sendCommand, hr, h2], by simp [step, sendCommand, hr, h3]⟩
    · rcases hI with ⟨h1, h2, h3⟩ | ⟨p, h1, h2, h3⟩
      · exact Or.inr ⟨s.nextPid, by simp [step, sendCommand, hr, h1],
          by simp [step, sendCommand, hr, h1, h2], by simp [step, sendCommand, hr, h1, ht]⟩
      · exact Or.inr ⟨p, by simp [step, sendCommand, hr, h1],
          by simp [step, sendCommand, hr, h1, h2], by simp [step, sendCommand, hr, h1, h3]⟩
  | procExit p =>
    by_cases hmem : p ∈ s.live
    · rcases hI with ⟨h1, h2, h3⟩ | ⟨q, h1, h2, h3⟩
      · rw [h2] at hmem; cases hmem
      · have hpq : p = q := by rw [h2] at hmem; simpa using hmem
        cases hq : s.ps.commandQueue with
        | nil =>
          exact Or.inl
            ⟨by simp [step, hmem, onClaudeClose, processNextInQueue, hq],
             by simp [step, hmem, onClaudeClose, processNextInQueue, hq, h2, hpq],
             by simp [step, hmem, onClaudeClose, processNextInQueue, hq, h3]⟩
        | cons c rest =>
          exact Or.inl
            ⟨by simp [step, hmem, onClaudeClose, processNextInQueue, hq],
             by simp [step, hmem, onClaudeClose, processNextInQueue, hq, h2, hpq],
             by simp [step, hmem, onClaudeClose, processNextInQueue, hq, h3]⟩
    · have hstep : step (SEv.procExit p) s = s := by simp [step, hmem]
      rw [hstep]
      exact hI
  | fire =>
    cases ht : s.timers with
    | nil =>
      rcases hI with ⟨h1, h2, h3⟩ | ⟨q, h1, h2, h3⟩
      · exact Or.inl ⟨by simp [step, ht, h1], by simp [step, ht, h2],
          by simp [step, ht, h3]⟩
      · exact Or.inr ⟨q, by simp [step, ht, h1], by simp [step, ht, h2],
          by simp [step, ht, h3]⟩
    | cons c ts =>
      rcases hI with ⟨h1, h2, h3⟩ | ⟨q, h1, h2, h3⟩
      · have hts : ts = [] := by
          rw [ht] at h3; simpa using h3
        by_cases hr : s.ps.claudeReady = false
        · exact Or.inl ⟨by simp [step, ht, sendCommand, hr, h1],
            by simp [step, ht, sendCommand, hr, h2],
            by simp [step, ht, sendCommand, hr, hts]⟩
        · exact Or.inr ⟨s.nextPid, by simp [step, ht, sendCommand, hr],
            by simp [step, ht, sendCommand, hr, h2],
            by simp [step, ht, sendCommand, hr, hts]⟩
      · rw [ht] at h3; cases h3

/-- The mutual-exclusion shape holds along every run in which no
submission happens while a dequeue timer is pending. -/
theorem schedInv_run {Cmd : Type} (evs : List (SEv Cmd)) (s : Sched Cmd)
    (hI : SchedInv s) (hok : okFrom s evs = true) :
    SchedInv (run evs s) := by
  induction evs generalizing s with
  | nil => exact hI
  | cons e es ih =>
    rw [okFrom, Bool.and_eq_true] at hok
    exact ih (step e s) (schedInv_step e s hI hok.1) hok.2

/-- C1 (counterexample): mutual exclusion does not hold for every
interleaving of submissions, the 500ms dequeue delay and queue
re-submissions.  Trace: `start-claude`; command 1 spawns process 0;
command 2 is queued; process 0 exits, its close handler clears
`claudeProcess` and schedules the dequeue timer for command 2; during
the 500ms delay the user submits command 3, which sees
`claudeProcess === null` and spawns process 1; then the timer fires and
the `fromQueue` re-submission bypasses the queue gate without
re-checking `claudeProcess`, spawning process 2 — two agent processes
are now live for the project at once. -/
theorem mutex_violated_in_delay_window :
    ¬ ((run [SEv.start, SEv.submit 1, SEv.submit 2, SEv.procExit 0,
             SEv.submit 3, SEv.fire]
          ((initSched : Sched Nat))).live.length ≤ 1) := by
  decide

/-- C1 (amended): at most one agent process is live per project, for
every interleaving in which no new submission is processed while a
dequeue timer is pending (that is, outside the 500ms window between a
close handler scheduling a re-submission and the re-submission
running).  In that window, `mutex_violated_in_delay_window` shows the
gate is bypassed and mutual exclusion fails. -/
theorem at_most_one_agent_without_delay_submissions {Cmd : Type}
    (evs : List (SEv Cmd)) (h : okFrom initSched evs = true) :
    (run evs initSched).live.length ≤ 1 := by
  have hI := schedInv_run evs initSched (Or.inl ⟨rfl, rfl, by simp [initSched]⟩) h
  rcases hI with ⟨_, hl, _⟩ | ⟨p, _, hl, _⟩ <;> simp [hl]

/-- Witness for `at_most_one_agent_without_delay_submissions`: a
concrete restricted trace (start, one submission, the process exits,
the timer slot is empty when it fires) keeps at most one live agent
process. -/
theorem at_most_one_agent_without_delay_submissions_witness :
    okFrom ((initSched : Sched Nat))
      [SEv.start, SEv.submit 5, SEv.procExit 0, SEv.fire] = true ∧
    (run [SEv.start, SEv.submit 5, SEv.procExit 0, SEv.fire]
      ((initSched : Sched Nat))).live.length ≤ 1 :=
  ⟨by decide, at_most_one_agent_without_delay_submissions _ (by decide)⟩

/-- One scheduler step preserves the FIFO bookkeeping invariant, with
no restriction on interleavings. -/
theorem qInv_step {Cmd : Type} (e : SEv Cmd) (s : Sched Cmd) (hI : QInv s) :
    QInv (step e s) := by
  obtain ⟨hfifo, hready⟩ := hI
  cases e with
  | start =>
    refine ⟨by simpa [step] using hfifo, ?_⟩
    intro h
    simp [step] at h
  | submit c =>
    by_cases hr : s.ps.claudeReady = false
    · refine ⟨by simpa [step, sendCommand, hr] using hfifo, ?_⟩
      intro h
      rcases hready hr with ⟨h1, h2, h3, h4⟩
      exact ⟨by simpa [step, sendCommand, hr] using h1,
        by simpa [step, sendCommand, hr] using h2,
        by simpa [step, sendCommand, hr] using h3,
        by simpa [step, sendCommand, hr] using h4⟩
    · by_cases hp : s.ps.claudeProcess.isSome
      · refine ⟨?_, ?_⟩
        · simp [step, sendCommand, hr, hp, ← hfifo]
        · intro h
          simp [step, sendCommand, hr, hp] at h
      · refine ⟨?_, ?_⟩
        · simp [step, sendCommand, hr, hp, hfifo]
        · intro h
          simp [step, sendCommand, hr, hp] at h
  | procExit p =>
    by_cases hmem : p ∈ s.live
    · cases hq : s.ps.commandQueue with
      | nil =>
        refine ⟨by simp [step, hmem, onClaudeClose, processNextInQueue, hq,
          ← hfifo], ?_⟩
        intro h
        simp only [step, hmem, if_pos, onClaudeClose, processNextInQueue, hq] at h ⊢
        rcases hready (by simpa using h) with ⟨h1, h2, h3, h4⟩
        simp [h1, h2, h3, h4, hq]
      | cons c rest =>
        refine ⟨by simp [step, hmem, onClaudeClose, processNextInQueue, hq,
          ← hfifo], ?_⟩
        intro h
        simp only [step, hmem, if_pos, onClaudeClose, processNextInQueue, hq] at h ⊢
        rcases hready (by simpa using h) with ⟨h1, h2, h3, h4⟩
        rw [hq] at h2; cases h2
    · refine ⟨by simpa [step, hmem] using hfifo, ?_⟩
      intro h
      rcases hready (by simpa [step, hmem] using h) with ⟨h1, h2, h3, h4⟩
      exact ⟨by simpa [step, hmem] using h1, by simpa [step, hmem] using h2,
        by simpa [step, hmem] using h3, by simpa [step, hmem] using h4⟩
  | fire =>
    cases ht : s.timers with
    | nil =>
      refine ⟨by simpa [step, ht] using hfifo, ?_⟩
      intro h
      rcases hready (by simpa [step, ht] using h) with ⟨h1, h2, h3, h4⟩
      exact ⟨by simp [step, ht], by simpa [step, ht] using h2,
        by simpa [step, ht] using h3, by simpa [step, ht] using h4⟩
    | cons c ts =>
      by_cases hr : s.ps.claudeReady = false
      · rcases hready hr with ⟨h1, h2, h3, h4⟩
        rw [ht] at h1; cases h1
      · refine ⟨?_, ?_⟩
        · simp [step, ht, sendCommand, hr, ← hfifo]
        · intro h
          simp [step, ht, sendCommand, hr] at h

/-- The FIFO bookkeeping invariant holds along every run. -/
theorem qInv_run {Cmd : Type} (evs : List (SEv Cmd)) (s : Sched Cmd)
    (hI : QInv s) : QInv (run evs s) := by
  induction evs generalizing s with
  | nil => exact hI
  | cons e es ih => exact ih (step e s) (qInv_step e s hI)

/-- C2: queued commands are executed in exactly their submission
order, for every interleaving: the queued commands whose re-submission
has already spawned, followed by the ones waiting in dequeue timers,
followed by the ones still in `commandQueue`, are exactly the commands
ever appended to the queue, in append order — appends go to the tail
(`push`, line 486) and dequeues take the head (`shift`, line 613), so
the executed order is the submission order. -/
theorem queued_commands_fifo {Cmd : Type} (evs : List (SEv Cmd)) :
    (run evs initSched).executedQ ++ (run evs initSched).timers ++
      (run evs initSched).ps.commandQueue = (run evs initSched).enqueued := by
  have h := qInv_run evs initSched
    ⟨by simp [initSched, initialProjectState],
     by intro; simp [initSched, initialProjectState]⟩
  exact h.1

/-- Chunk composition: processing `s ++ t` is processing `s`, then
processing the leftover fragment of `s` prepended to `t`. -/
theorem processAllGo_append (d : List Char → Option Decoded)
    (s : List Char) : ∀ (cur t : List Char),
    processAllGo d cur (s ++ t) =
      ((processAllGo d cur s).1 ++
         (processAllGo d (processAllGo d cur s).2 t).1,
       (processAllGo d (processAllGo d cur s).2 t).2) := by
  induction s with
  | nil => intro cur t; simp [processAllGo]
  | cons c cs ih =>
    intro cur t
    by_cases hc : c = '\n'
    · simp [processAllGo, hc, ih]
    · simp [processAllGo, hc, ih]

/-- The leftover fragment is the fold that resets at each newline. -/
theorem processAllGo_snd (d : List Char → Option Decoded)
    (s : List Char) : ∀ cur,
    (processAllGo d cur s).2 =
      s.foldl (fun acc c => if c = '\n' then [] else acc ++ [c]) cur := by
  induction s with
  | nil => intro cur; simp [processAllGo]
  | cons c cs ih =>
    intro cur
    by_cases hc : c = '\n'
    · simp [processAllGo, hc, ih]
    · simp [processAllGo, hc, ih]

/-- The carry-over buffer after processing a text is exactly the
fragment after the text's last newline. -/
theorem processAll_snd (d : List Char → Option Decoded) (s : List Char) :
    (processAll d s).2 = afterLastNl s := by
  rw [processAll, processAllGo_snd, afterLastNl]

/-- A newline-free pending fragment can be moved from the input into
the current-line accumulator. -/
theorem processAllGo_shift (d : List Char → Option Decoded)
    (cur : List Char) : ∀ (pre t : List Char),
    (∀ ch ∈ cur, ch ≠ '\n') →
    processAllGo d pre (cur ++ t) = processAllGo d (pre ++ cur) t := by
  induction cur with
  | nil => intro pre t _; simp
  | cons x cur ih =>
    intro pre t h
    have hx : x ≠ '\n' := h x (by simp)
    rw [List.cons_append, processAllGo, if_neg hx]
    rw [ih (pre ++ [x]) t (fun ch hch => h ch (by simp [hch]))]
    simp

/-- The leftover fragment never contains a newline (when the starting
accumulator does not). -/
theorem processAllGo_snd_no_nl (d : List Char → Option Decoded)
    (s : List Char) : ∀ cur,
    (∀ ch ∈ cur, ch ≠ '\n') →
    ∀ ch ∈ (processAllGo d cur s).2, ch ≠ '\n' := by
  induction s with
  | nil => intro cur h; simpa [processAllGo] using h
  | cons c cs ih =>
    intro cur h
    by_cases hc : c = '\n'
    · rw [processAllGo, if_pos hc]
      exact ih [] (by simp)
    · rw [processAllGo, if_neg hc]
      refine ih (cur ++ [c]) ?_
      intro ch hch
      rcases List.mem_append.mp hch with h1 | h1
      · exact h ch h1
      · simp only [List.mem_singleton] at h1
        exact h1 ▸ hc

/-- Feeding chunks while threading a newline-free buffer equals running
the streaming parser over the concatenation with that buffer as the
pending current line. -/
theorem feed_go (d : List Char → Option Decoded) :
    ∀ (cs : List (List Char)) (buf : List Char),
    (∀ ch ∈ buf, ch ≠ '\n') →
    feed d cs buf = processAllGo d buf cs.flatten := by
  intro cs
  induction cs with
  | nil => intro buf _; simp [feed, processAllGo]
  | cons c rest ih =>
    intro buf hbuf
    rw [feed]
    have hshift : processAllGo d [] (buf ++ c) = processAllGo d buf c := by
      have := processAllGo_shift d buf [] c hbuf
      simpa using this
    have hsnd : ∀ ch ∈ (processAllGo d buf c).2, ch ≠ '\n' :=
      processAllGo_snd_no_nl d c buf hbuf
    rw [show processClaudeOutput d c buf = processAllGo d buf c from hshift]
    rw [ih _ hsnd]
    rw [List.flatten_cons]
    rw [processAllGo_append d c buf rest.flatten]

/-- Feeding chunks from an empty buffer equals processing their
concatenation. -/
theorem feed_join (d : List Char → Option Decoded)
    (cs : List (List Char)) : feed d cs [] = processAll d cs.flatten := by
  rw [feed_go d cs [] (by simp), processAll]

/-- C5: chunk-boundary independence of the output stream parser — for
any two chunkings of the same text, feeding the chunks through
`processClaudeOutput` (threading the carry-over buffer) yields the
identical event sequence, and the identical final buffer (on which the
end-of-stream treatment, which never reads it, also agrees). -/
theorem chunking_independent (d : List Char → Option Decoded)
    (chunks1 chunks2 : List (List Char))
    (h : chunks1.flatten = chunks2.flatten) :
    feed d chunks1 [] = feed d chunks2 [] := by
  rw [feed_join, feed_join, h]

/-- Witness for `chunking_independent`: splitting `a\nb` as one chunk
or as `a\n` and `b` produces the same events. -/
theorem chunking_independent_witness :
    (["a\nb".toList] : List (List Char)).flatten =
      (["a\n".toList, "b".toList] : List (List Char)).flatten ∧
    feed decodeAllRaw ["a\nb".toList] [] =
      feed decodeAllRaw ["a\n".toList, "b".toList] [] :=
  ⟨by decide, chunking_independent decodeAllRaw _ _ (by decide)⟩

/-- C6 (counterexample): the stream consisting of the single chunk
`abc` with no terminating newline.  The parser leaves `abc` in the
carry-over buffer, and the close handler (lines 577-584) sends only the
completion notice without flushing the buffer, so the concatenation of
all forwarded content does not include the trailing partial line —
refuting the claim that a trailing line without a newline is flushed at
process exit. -/
theorem trailing_fragment_not_forwarded :
    feed decodeAllRaw ["abc".toList] [] = ([], "abc".toList) ∧
    containsSub "abc".toList
      (((totalForwarded decodeAllRaw ["abc".toList] 0).map eventText).flatten)
      = false :=
  ⟨by decide, by decide⟩

/-- C6 (amended): at agent-process exit no flush occurs — the close
handler emits only the completion notice and never reads the carry-over
buffer, so the forwarded output of a run is exactly the events of the
complete (newline-terminated) lines of the stream, and the fragment
after the last newline stays in the buffer, unforwarded. -/
theorem no_flush_at_exit (d : List Char → Option Decoded)
    (chunks : List (List Char)) (code : Nat) :
    totalForwarded d chunks code =
      (processAll d chunks.flatten).1 ++ [Event.output (doneMsg code)] ∧
    (feed d chunks []).2 = afterLastNl chunks.flatten := by
  constructor
  · rw [totalForwarded, feed_join]; rfl
  · rw [feed_join, processAll_snd]

/-- C7 (counterexample): the complete line `{"type":"result"}` parses
as JSON (`decodeResultLine` records the actual `JSON.parse` verdict on
it: success, record type `result`), its type is unrecognized, and the
dispatcher emits nothing — the line is silently dropped rather than
forwarded verbatim, refuting the claim that an unrecognized record type
is forwarded as opaque output. -/
theorem unrecognized_type_line_dropped :
    lineEvents decodeResultLine resultLine = [] ∧
    (trimChars resultLine).isEmpty = false :=
  ⟨by decide, by decide⟩

/-- C7 (amended): the parser never drops a line that fails JSON
decoding — any complete non-whitespace line on which decode throws is
forwarded verbatim (with a newline appended) as an opaque
`claude-output` event; whitespace-only lines emit nothing; but a line
that parses successfully with an unrecognized record type emits nothing
and is silently dropped (`unrecognized_type_line_dropped`). -/
theorem raw_forward_on_decode_failure (d : List Char → Option Decoded)
    (line : List Char) (hfail : d line = none)
    (hne : (trimChars line).isEmpty = false) :
    lineEvents d line = [Event.output (line ++ "\n".toList)] ∧
    (∀ l2, (trimChars l2).isEmpty = true → lineEvents d l2 = []) ∧
    (∀ l3, d l3 = some Decoded.other → lineEvents d l3 = []) := by
  refine ⟨?_, ?_, ?_⟩
  · simp [lineEvents, hfail, hne]
  · intro l2 h2
    simp [lineEvents, h2]
  · intro l3 h3
    by_cases h : (trimChars l3).isEmpty
    · simp [lineEvents, h]
    · simp [lineEvents, h, h3]

/-- Witness for `raw_forward_on_decode_failure`: the non-JSON line
`hello` is forwarded verbatim with a newline appended. -/
theorem raw_forward_on_decode_failure_witness :
    decodeAllRaw "hello".toList = none ∧
    (trimChars "hello".toList).isEmpty = false ∧
    lineEvents decodeAllRaw "hello".toList =
      [Event.output ("hello".toList ++ "\n".toList)] :=
  ⟨rfl, by decide,
   (raw_forward_on_decode_failure decodeAllRaw "hello".toList rfl
     (by decide)).1⟩

/-- C8 (counterexample): start the dev server successfully (process id
1, watcher id 2), then let the process exit on its own.  The close
handler (lines 953-959) clears `netlifyProcess` and the ports but
leaves `fileWatcher` running — refuting the claim that the watcher is
torn down on every path on which the dev-server process ceases,
including its own close event. -/
theorem watcher_survives_self_exit :
    (netlifyClose (startNetlifyOk "5173".toList 1 2
        ((initialProjectState : ProjectState Nat)))).netlifyProcess = none ∧
    (netlifyClose (startNetlifyOk "5173".toList 1 2
        ((initialProjectState : ProjectState Nat)))).fileWatcher = some 2 :=
  ⟨rfl, rfl⟩

/-- C8 (amended): the file watcher is torn down on explicit stop
(`stopNetlify` always leaves `fileWatcher` null together with
`netlifyProcess`) and is replaced on a successful restart
(`startNetlifyOk` closes any previous watcher and installs the new
handle), but it is NOT torn down when the dev-server process exits on
its own: the close handler leaves `fileWatcher` exactly as it was while
clearing `netlifyProcess`, so `fileWatcher` can be non-null while
`netlifyProcess` is null. -/
theorem watcher_teardown_paths {Cmd : Type} (s : ProjectState Cmd)
    (assigned : List Char) (procId watchId : Nat) :
    (stopNetlify s).fileWatcher = none ∧
    (stopNetlify s).netlifyProcess = none ∧
    (netlifyClose s).fileWatcher = s.fileWatcher ∧
    (netlifyClose s).netlifyProcess = none ∧
    (startNetlifyOk assigned procId watchId s).fileWatcher = some watchId := by
  refine ⟨?_, ?_, rfl, rfl, ?_⟩
  · rw [stopNetlify]
    by_cases hw : s.fileWatcher.isSome
    · by_cases hp : s.netlifyProcess.isSome <;> simp [hw, hp]
    · by_cases hp : s.netlifyProcess.isSome <;>
        simp_all [Option.not_isSome_iff_eq_none]
  · rw [stopNetlify]
    by_cases hw : s.fileWatcher.isSome
    · by_cases hp : s.netlifyProcess.isSome <;>
        simp_all [Option.not_isSome_iff_eq_none]
    · by_cases hp : s.netlifyProcess.isSome <;>
        simp_all [Option.not_isSome_iff_eq_none]
  · rw [startNetlifyOk]

/-- Every event of the pattern loop announces a port whose digits parse
into the 3000..9999 window (the `continue` of line 731 filters every
out-of-range capture before any announcement). -/
theorem detectLoop_port_in_range {Cmd : Type} (output : List Char) :
    ∀ (pats : List ((List Char → Option (List Char)) × PatTy))
      (s : ProjectState Cmd) (ev : Event),
      ev ∈ (detectLoop output s pats).2 →
      ∃ ds, ev = Event.previewUrl ("http://localhost:".toList ++ ds) ∧
        3000 ≤ digitsToNat ds ∧ digitsToNat ds ≤ 9999 := by
  intro pats
  induction pats with
  | nil => intro s ev h; simp [detectLoop] at h
  | cons pt rest ih =>
    intro s ev h
    obtain ⟨pat, ty⟩ := pt
    rw [detectLoop] at h
    cases hm : firstMatch pat output with
    | none =>
      rw [hm] at h
      exact ih s ev h
    | some ds =>
      simp only [hm] at h
      split_ifs at h with h1 h2 h3
      · exact ih s ev h
      · simp only [List.mem_singleton] at h
        simp only [Bool.or_eq_true, decide_eq_true_eq, not_or] at h1
        exact ⟨ds, h, by omega, by omega⟩
      · simp only [List.mem_singleton] at h
        simp only [Bool.or_eq_true, decide_eq_true_eq, not_or] at h1
        exact ⟨ds, h, by omega, by omega⟩
      · simp at h

/-- C9: the port-announcement scanner on the concrete scenario lines,
and the range rule.  On `Local: http://localhost:5173/` it emits
exactly one `preview-url` event `http://localhost:5173` and records the
dev port; on `Waiting for localhost:4000` the not-yet-ready guard fires
before any pattern is tested and nothing at all is emitted, for every
project state; and every event the scanner ever emits announces a port
in 3000..9999 — an out-of-range captured number never produces an
event. -/
theorem detect_port_announcements {Cmd : Type} (output : List Char)
    (s : ProjectState Cmd) (ev : Event)
    (hev : ev ∈ (detectAndSendPort output s).2) :
    (detectAndSendPort "Local: http://localhost:5173/".toList
        ((initialProjectState : ProjectState Nat)) =
      ({ (initialProjectState : ProjectState Nat) with vitePort := some "5173".toList },
       [Event.previewUrl "http://localhost:5173".toList])) ∧
    (∀ s2 : ProjectState Cmd,
      detectAndSendPort "Waiting for localhost:4000".toList s2 = (s2, [])) ∧
    (∃ ds, ev = Event.previewUrl ("http://localhost:".toList ++ ds) ∧
      3000 ≤ digitsToNat ds ∧ digitsToNat ds ≤ 9999) := by
  refine ⟨by decide, fun s2 => rfl, ?_⟩
  rw [detectAndSendPort] at hev
  split_ifs at hev
  · simp at hev
  · exact detectLoop_port_in_range output patternTable s ev hev

/-- Witness for `detect_port_announcements`: the `Local:` line itself,
whose single emitted event announces port 5173, inside the window. -/
theorem detect_port_announcements_witness :
    Event.previewUrl "http://localhost:5173".toList ∈
      (detectAndSendPort "Local: http://localhost:5173/".toList
        ((initialProjectState : ProjectState Nat))).2 ∧
    (∃ ds, Event.previewUrl "http://localhost:5173".toList =
        Event.previewUrl ("http://localhost:".toList ++ ds) ∧
      3000 ≤ digitsToNat ds ∧ digitsToNat ds ≤ 9999) :=
  ⟨by decide,
   (detect_port_announcements "Local: http://localhost:5173/".toList
      ((initialProjectState : ProjectState Nat))
      (Event.previewUrl "http://localhost:5173".toList) (by decide)).2.2⟩

/-- C10: `stopCurrentCommand` affects only the active agent process.
For every project state it leaves `commandQueue`, `claudeReady`,
`currentWs`, `netlifyProcess`, `fileWatcher` and the port fields
unchanged (and it never reads the persisted port table); when a process
is running it kills it, clears `claudeProcess` and sends only the stop
notice, and when none is running it is a no-op emitting no events.  In
contrast `stopClaude` also discards the queue, clears `currentWs` and
clears the ready flag. -/
theorem stop_current_command_frame {Cmd : Type} (s : ProjectState Cmd) :
    ((stopCurrentCommand s).1.commandQueue = s.commandQueue ∧
     (stopCurrentCommand s).1.claudeReady = s.claudeReady ∧
     (stopCurrentCommand s).1.currentWs = s.currentWs ∧
     (stopCurrentCommand s).1.netlifyProcess = s.netlifyProcess ∧
     (stopCurrentCommand s).1.fileWatcher = s.fileWatcher ∧
     (stopCurrentCommand s).1.vitePort = s.vitePort ∧
     (stopCurrentCommand s).1.netlifyPort = s.netlifyPort) ∧
    (s.claudeProcess = none → stopCurrentCommand s = (s, [])) ∧
    (∀ pid, s.claudeProcess = some pid →
      (stopCurrentCommand s).1.claudeProcess = none ∧
      (stopCurrentCommand s).2 =
        [Act.kill pid,
         Act.send (Event.output "\n\n⬛ Kommando stoppet.\n".toList)]) ∧
    ((stopClaude s).1.commandQueue = [] ∧
     (stopClaude s).1.claudeReady = false ∧
     (stopClaude s).1.currentWs = none) := by
  cases hp : s.claudeProcess with
  | none =>
    refine ⟨⟨?_, ?_, ?_, ?_, ?_, ?_, ?_⟩, ?_, ?_, ?_, ?_, ?_⟩ <;>
      simp [stopCurrentCommand, stopClaude, hp]
  | some pid =>
    refine ⟨⟨?_, ?_, ?_, ?_, ?_, ?_, ?_⟩, ?_, ?_, ?_, ?_, ?_⟩ <;>
      simp [stopCurrentCommand, stopClaude, hp]

/-- Witness for `stop_current_command_frame`: a state with a running
process (pid 5); the call clears the handle. -/
theorem stop_current_command_frame_witness :
    ({ (initialProjectState : ProjectState Nat) with claudeProcess := some 5 }
        : ProjectState Nat).claudeProcess = some 5 ∧
    (stopCurrentCommand
      ({ (initialProjectState : ProjectState Nat) with claudeProcess := some 5 }
        : ProjectState Nat)).1.claudeProcess = none :=
  ⟨rfl,
   ((stop_current_command_frame
      ({ (initialProjectState : ProjectState Nat) with claudeProcess := some 5 }
        : ProjectState Nat)).2.2.1 5 rfl).1⟩

end ClaudeEditor
